import Mathlib

/-
Verification of the quick value-hashing library (include/quick/hash.hpp).

Shallow embedding: each C++ template is embedded as a Lean function
parametrised by the hashers that template argument resolution would supply
(the result of the hash_impl dispatcher for the relevant element types) and
by the combine primitive (boost hash_combine), which the design treats as an
external host primitive.  std::size_t arithmetic is modelled as Nat with
explicit reduction mod 2 ^ 64 inside the concrete combine primitive.
-/

namespace quick

/-- Concrete model of the host combine primitive boost hash_combine on a
64-bit size_t: seed XOR (v + 0x9e3779b9 + (seed shifted left 6) + (seed
shifted right 2)), every addition taken mod 2 ^ 64.  Used only to
instantiate witnesses and counterexamples; the library theorems quantify
over an arbitrary combine function. -/
def boost_hash_combine (seed v : Nat) : Nat :=
  (seed % 2 ^ 64) ^^^ ((v + 0x9e3779b9 + seed * 64 + seed / 4) % 2 ^ 64)

/-- The range-for loop body of OrderedSequenceHash: starting from the
accumulator hash, for each element e perform hash = combine hash (hasher e).
hasher is the resolved hash_impl of the container value_type. -/
def seqLoop {α : Type} (combine : Nat → Nat → Nat) (hasher : α → Nat) :
    Nat → List α → Nat
  | hash, [] => hash
  | hash, e :: rest => seqLoop combine hasher (combine hash (hasher e)) rest

/-- Embeds OrderedSequenceHash: the accumulator starts from
hash_impl of size_t applied to input.size() (the hashNat parameter), then the
loop combines each element hash in iteration order. -/
def OrderedSequenceHash {α : Type} (combine : Nat → Nat → Nat)
    (hashNat : Nat → Nat) (hasher : α → Nat) (input : List α) : Nat :=
  seqLoop combine hasher (hashNat input.length) input

/-- The range-for loop body of OrderedMapHash.  The C++ source applies
key_hasher to BOTH e.first and e.second (its declared value_hasher is never
used), so one loop step performs two combine calls, both with the key
hasher.  The embedding uses a single carrier for keys and values, matching
the fact that the C++ only compiles when the value is convertible to the
key hasher argument type. -/
def mapLoop {α : Type} (combine : Nat → Nat → Nat) (key_hasher : α → Nat) :
    Nat → List (α × α) → Nat
  | hash, [] => hash
  | hash, e :: rest =>
      mapLoop combine key_hasher
        (combine (combine hash (key_hasher e.1)) (key_hasher e.2)) rest

/-- Embeds OrderedMapHash: accumulator starts at 0 (no entry-count seed);
the value_hasher parameter mirrors the declared-but-unused local variable
of the C++ source. -/
def OrderedMapHash {α : Type} (combine : Nat → Nat → Nat)
    (key_hasher value_hasher : α → Nat) (input : List (α × α)) : Nat :=
  mapLoop combine key_hasher 0 input

/-- The Mapping Hasher as the spec words it: for each entry, combine the
key hash computed by the key rule and then the value hash computed by the
value rule.  Declared for comparison with OrderedMapHash. -/
def spec_OrderedMapHash {α : Type} (combine : Nat → Nat → Nat)
    (key_hasher value_hasher : α → Nat) (input : List (α × α)) : Nat :=
  input.foldl
    (fun hash e => combine (combine hash (key_hasher e.1)) (value_hasher e.2)) 0

/-- Embeds PairHash: hash1 = hash of first, hash2 = hash of second,
combine hash2 into hash1, return hash1. -/
def PairHash {α β : Type} (combine : Nat → Nat → Nat) (h1 : α → Nat)
    (h2 : β → Nat) (p : α × β) : Nat :=
  combine (h1 p.1) (h2 p.2)

/-- The pair hashing rule as claim C2 words it: collect the two sub-hashes
into a list and apply the Sequence Hasher (whose element hasher for a
vector of size_t is the size_t primitive hash) with its length seed.
Declared for comparison with PairHash. -/
def spec_PairHash {α β : Type} (combine : Nat → Nat → Nat)
    (hashNat : Nat → Nat) (h1 : α → Nat) (h2 : β → Nat) (p : α × β) : Nat :=
  OrderedSequenceHash combine hashNat hashNat [h1 p.1, h2 p.2]

/-- Embeds TupleHashImplHelper: build the vector hashed_elements whose i-th
entry is the i-th element hashed by its own resolved hash_impl, then call
OrderedSequenceHash on that vector of size_t (whose element hasher is the
size_t primitive hash).  A heterogeneous n-tuple is embedded as a dependent
function v over Fin n together with the per-position resolved hashers hs. -/
def TupleHashImplHelper {n : Nat} (combine : Nat → Nat → Nat)
    (hashNat : Nat → Nat) (τ : Fin n → Type) (hs : (i : Fin n) → τ i → Nat)
    (v : (i : Fin n) → τ i) : Nat :=
  OrderedSequenceHash combine hashNat hashNat
    ((List.finRange n).map (fun i => hs i (v i)))

/-- Embeds TupleHash: delegates to TupleHashImplHelper over the index
sequence 0..n-1 (make_index_sequence is implicit in List.finRange). -/
def TupleHash {n : Nat} (combine : Nat → Nat → Nat) (hashNat : Nat → Nat)
    (τ : Fin n → Type) (hs : (i : Fin n) → τ i → Nat)
    (v : (i : Fin n) → τ i) : Nat :=
  TupleHashImplHelper combine hashNat τ hs v

/-- The tuple rule as the spec words it: the Sequence Hasher's length-seeded
fold applied to the fixed-order list of per-element hashes, each element
hashed by its own type-specific rule.  Declared for comparison with
TupleHash. -/
def spec_TupleSequenceFold {n : Nat} (combine : Nat → Nat → Nat)
    (hashNat : Nat → Nat) (τ : Fin n → Type) (hs : (i : Fin n) → τ i → Nat)
    (v : (i : Fin n) → τ i) : Nat :=
  OrderedSequenceHash combine hashNat hashNat
    ((List.finRange n).map (fun i => hs i (v i)))

/-- One variadic HashFunction argument: a value of an arbitrary type packed
with the hasher that hash_impl dispatch resolves for that type. -/
abbrev HashArg : Type 1 := Σ α : Type, (α → Nat) × α

/-- The single-argument HashFunction: quick hash of the input, i.e. the
resolved hash_impl applied to the value. -/
def argHash : HashArg → Nat
  | ⟨_, h, v⟩ => h v

/-- Embeds the three HashFunction overloads as one function on the argument
list: the nullary overload returns 0; the unary overload returns the hash of
its argument; the variadic overload starts from the hash of the first
argument, combines the hash of the second, then folds the remaining
argument hashes through combine in argument order. -/
def HashFunction (combine : Nat → Nat → Nat) : List HashArg → Nat
  | [] => 0
  | [a] => argHash a
  | a :: b :: rest =>
      rest.foldl (fun hash x => combine hash (argHash x))
        (combine (argHash a) (argHash b))

/-- Embeds the hash_impl dispatcher step for a type that may expose a
GetHash member: when the member is present (getHash = some g) the SFINAE
specialisation applies and returns t.GetHash(); otherwise resolution falls
back to the structural rule for the type. -/
def hash_impl_with_user {α : Type} (getHash : Option (α → Nat))
    (fallback : α → Nat) (t : α) : Nat :=
  match getHash with
  | some g => g t
  | none => fallback t

/- ------------------------------------------------------------------ -/
/- Helper lemmas shared by the claim theorems.                         -/
/- ------------------------------------------------------------------ -/

theorem seqLoop_eq_foldl {α : Type} (combine : Nat → Nat → Nat)
    (hasher : α → Nat) :
    ∀ (l : List α) (h : Nat),
      seqLoop combine hasher h l
        = l.foldl (fun seed e => combine seed (hasher e)) h := by
  intro l
  induction l with
  | nil => intro h; rfl
  | cons e rest ih =>
      intro h
      simp only [seqLoop, List.foldl]
      exact ih _

theorem seqLoop_congr {α : Type} (combine : Nat → Nat → Nat)
    (hasher : α → Nat) (eqv : α → α → Prop)
    (hresp : ∀ a b, eqv a b → hasher a = hasher b) :
    ∀ {s1 s2 : List α}, List.Forall₂ eqv s1 s2 →
      ∀ h : Nat, seqLoop combine hasher h s1 = seqLoop combine hasher h s2 := by
  intro s1 s2 hf
  induction hf with
  | nil => intro h; rfl
  | cons hab _ ih =>
      intro h
      simp only [seqLoop]
      rw [hresp _ _ hab]
      exact ih _

theorem mapLoop_congr {α : Type} (combine : Nat → Nat → Nat)
    (key_hasher : α → Nat) (eqv : α → α → Prop)
    (hresp : ∀ a b, eqv a b → key_hasher a = key_hasher b) :
    ∀ {m1 m2 : List (α × α)},
      List.Forall₂ (fun e f => eqv e.1 f.1 ∧ eqv e.2 f.2) m1 m2 →
      ∀ h : Nat,
        mapLoop combine key_hasher h m1 = mapLoop combine key_hasher h m2 := by
  intro m1 m2 hf
  induction hf with
  | nil => intro h; rfl
  | cons hab _ ih =>
      intro h
      simp only [mapLoop]
      rw [hresp _ _ hab.1, hresp _ _ hab.2]
      exact ih _

/- ------------------------------------------------------------------ -/
/- Claim theorems.                                                     -/
/- ------------------------------------------------------------------ -/

/-- Claim C1 (code_bug evidence): the map hasher of the source applies the
KEY hasher to the value of each entry, so on an entry where the key rule and
the value rule disagree it differs from the claimed algorithm in which the
value hash is computed by the value type's own rule.  Concrete failing
input: one entry (0, 5) with key rule (k + 1) and value rule id. -/
theorem map_value_uses_key_hasher :
    OrderedMapHash boost_hash_combine (fun k => k + 1) id [(0, 5)]
      ≠ spec_OrderedMapHash boost_hash_combine (fun k => k + 1) id [(0, 5)] := by
  decide

/-- Claim C2 (counterexample): hashing the pair (1, 2) with identity element
hashers and the boost combine primitive does not equal the length-seeded
Sequence Hasher fold over the two sub-hashes that the claim describes: the
pair specialisation combines the two sub-hashes directly with no seed. -/
theorem pair_hash_not_length_seeded_cex :
    PairHash boost_hash_combine id id (1, 2)
      ≠ spec_PairHash boost_hash_combine id id id (1, 2) := by
  decide

/-- Claim C2 (amended): for every pair p, Hash p is the combine of the hash
of the first component and the hash of the second component, each computed
by its own type's rule, with no length seed and no re-hash of the
sub-hashes. -/
theorem pair_hash_combines_directly {α β : Type} (combine : Nat → Nat → Nat)
    (h1 : α → Nat) (h2 : β → Nat) (p : α × β) :
    PairHash combine h1 h2 p = combine (h1 p.1) (h2 p.2) := rfl

/-- Claim C3: the ordered sequence hash equals the fold that starts from the
primitive hash of the element count and combines each element hash in
iteration order, and the empty sequence hashes to the primitive hash of 0,
not to a sentinel constant. -/
theorem ordered_sequence_hash_spec {α : Type} (combine : Nat → Nat → Nat)
    (hashNat : Nat → Nat) (hasher : α → Nat) (l : List α) :
    OrderedSequenceHash combine hashNat hasher l
      = l.foldl (fun seed e => combine seed (hasher e)) (hashNat l.length)
    ∧ OrderedSequenceHash combine hashNat hasher ([] : List α) = hashNat 0 := by
  constructor
  · unfold OrderedSequenceHash
    exact seqLoop_eq_foldl combine hasher l (hashNat l.length)
  · rfl

/-- Claim C4: the tuple hash equals the Sequence Hasher applied to the
fixed-order list of per-element hashes (each element hashed by its own
rule), which unfolds to the fold seeded with the primitive hash of the
arity n that combines the size_t re-hash of each sub-hash in positional
order. -/
theorem tuple_hash_refines_sequence_fold {n : Nat} (combine : Nat → Nat → Nat)
    (hashNat : Nat → Nat) (τ : Fin n → Type) (hs : (i : Fin n) → τ i → Nat)
    (v : (i : Fin n) → τ i) :
    TupleHash combine hashNat τ hs v = spec_TupleSequenceFold combine hashNat τ hs v
    ∧ TupleHash combine hashNat τ hs v
      = ((List.finRange n).map (fun i => hs i (v i))).foldl
          (fun seed e => combine seed (hashNat e)) (hashNat n) := by
  constructor
  · rfl
  · unfold TupleHash TupleHashImplHelper OrderedSequenceHash
    rw [List.length_map, List.length_finRange]
    exact seqLoop_eq_foldl combine hashNat _ (hashNat n)

/-- Claim C5: consistency law.  For each composite rule, if the resolved
element hashers respect the element types' own equality, then values equal
under the composite type's own equality (elementwise equivalence, in
iteration order) receive equal hashes: stated for the ordered sequence
hasher, the ordered map hasher and the pair hasher. -/
theorem hash_consistency {α β : Type} (combine : Nat → Nat → Nat)
    (hashNat : Nat → Nat) (eqv : α → α → Prop) (eqvB : β → β → Prop)
    (hasher vhash : α → Nat) (hB : β → Nat)
    (hresp : ∀ a b, eqv a b → hasher a = hasher b)
    (hrespB : ∀ a b, eqvB a b → hB a = hB b)
    (s1 s2 : List α) (hs : List.Forall₂ eqv s1 s2)
    (m1 m2 : List (α × α))
    (hm : List.Forall₂ (fun e f => eqv e.1 f.1 ∧ eqv e.2 f.2) m1 m2)
    (p1 p2 : α × β) (hp1 : eqv p1.1 p2.1) (hp2 : eqvB p1.2 p2.2) :
    OrderedSequenceHash combine hashNat hasher s1
      = OrderedSequenceHash combine hashNat hasher s2
    ∧ OrderedMapHash combine hasher vhash m1
      = OrderedMapHash combine hasher vhash m2
    ∧ PairHash combine hasher hB p1 = PairHash combine hasher hB p2 := by
  refine ⟨?_, ?_, ?_⟩
  · unfold OrderedSequenceHash
    rw [hs.length_eq]
    exact seqLoop_congr combine hasher eqv hresp hs _
  · exact mapLoop_congr combine hasher eqv hresp hm 0
  · unfold PairHash
    rw [hresp _ _ hp1, hrespB _ _ hp2]

/-- Witness for claim C5: two independently constructed lists both holding
1, 2, 3 (and likewise equal maps and pairs) hash identically, by applying
the consistency theorem at equality on Nat with identity hashers. -/
theorem hash_consistency_witness :
    OrderedSequenceHash boost_hash_combine id id [1, 2, 3]
      = OrderedSequenceHash boost_hash_combine id id [1, 2, 3]
    ∧ OrderedMapHash boost_hash_combine id id [(1, 2)]
      = OrderedMapHash boost_hash_combine id id [(1, 2)]
    ∧ PairHash boost_hash_combine id id (1, 2)
      = PairHash boost_hash_combine id id (1, 2) :=
  hash_consistency boost_hash_combine id Eq Eq id id id
    (fun _ _ h => by rw [h]) (fun _ _ h => by rw [h])
    [1, 2, 3] [1, 2, 3] (.cons rfl (.cons rfl (.cons rfl .nil)))
    [(1, 2)] [(1, 2)] (.cons ⟨rfl, rfl⟩ .nil)
    (1, 2) (1, 2) rfl rfl

/-- Claim C6: for two or more arguments, HashFunction is the left-to-right
fold in argument order starting from the hash of the first argument and
combining each later argument's own hash; for one argument it is that
argument's hash. -/
theorem hash_function_fold (combine : Nat → Nat → Nat) (a b : HashArg)
    (rest : List HashArg) :
    HashFunction combine (a :: b :: rest)
      = (b :: rest).foldl (fun hash x => combine hash (argHash x)) (argHash a)
    ∧ HashFunction combine [a] = argHash a :=
  ⟨rfl, rfl⟩

/-- Claim C7: the zero-argument HashFunction returns the fixed constant 0
on every call, for every combine primitive. -/
theorem hash_function_nullary (combine : Nat → Nat → Nat) :
    HashFunction combine [] = 0 := rfl

/-- Claim C8: for a type exposing a GetHash member, the resolved hash is
exactly t.GetHash(): the user-supplied method takes precedence over the
structural fallback rule for that type. -/
theorem get_hash_override {α : Type} (g fallback : α → Nat) (t : α) :
    hash_impl_with_user (some g) fallback t = g t := rfl

/-- Claim C9: hashing a pair through the pair rule gives exactly the value
of the variadic HashFunction applied to its two components with their own
hashers: both paths combine the two component hashes directly with no
length seed. -/
theorem pair_hash_eq_hash_function {α β : Type} (combine : Nat → Nat → Nat)
    (h1 : α → Nat) (h2 : β → Nat) (p : α × β) :
    PairHash combine h1 h2 p
      = HashFunction combine [⟨α, h1, p.1⟩, ⟨β, h2, p.2⟩] := rfl

/-- Claim C10: the empty map hashes to the constant 0 for every combine
primitive and every pair of entry hashers (the map accumulator starts at 0
and is not seeded with an entry-count hash), which is the same value the
zero-argument HashFunction returns. -/
theorem empty_map_hash_zero {α : Type} (combine : Nat → Nat → Nat)
    (kh vh : α → Nat) :
    OrderedMapHash combine kh vh ([] : List (α × α)) = 0
    ∧ OrderedMapHash combine kh vh ([] : List (α × α))
      = HashFunction combine [] :=
  ⟨rfl, rfl⟩

end quick
